import Mathlib

/-!
Verification development for the wine-quality dashboard (`src/wine_quality.py`).

The script is sequential glue: load a CSV table, branch on a sidebar section
label, and inside each branch call pandas / scikit-learn / seaborn.  The
numeric computations (standardization, k-means, Pearson correlation) live in
those libraries, not in the repository; following the spec sections 4.4, 4.5
and the glossary we embed them here over `ℚ`, with square roots represented by
explicitly supplied standard-deviation values `s` constrained by `s * s =`
variance.  Tables are column-major lists of named rational columns.
-/

namespace WineQuality

/-- Column of the in-memory table: a name and its numeric values, one per row. -/
structure Col where
  name : String
  vals : List ℚ
deriving DecidableEq, Repr

instance : Inhabited Col := ⟨⟨"", []⟩⟩

/-- The in-memory table is a list of named columns. -/
abbrev Table := List Col

/-- A data row seen by the clustering step: one rational per feature column. -/
abbrev Point := List ℚ

/-- Arithmetic mean of a list of rationals (0 for the empty list). -/
def mean (xs : List ℚ) : ℚ := xs.sum / xs.length

/-- Population variance (`ddof = 0`, as scikit-learn's scaler uses). -/
def variance (xs : List ℚ) : ℚ := (xs.map (fun x => (x - mean xs) ^ 2)).sum / xs.length

/-- Modelled from the spec: standardization of one column (spec section 4.5 step 2 and
glossary), subtracting the column mean and dividing by its standard deviation;
the standard deviation is passed in as `s` (intended: `s * s = variance xs`). -/
def standardizeCol (s : ℚ) (xs : List ℚ) : List ℚ := xs.map (fun x => (x - mean xs) / s)

/-- Dropping a named column, as `data.drop("quality", axis=1)` does at line 60. -/
def dropCol (nm : String) (t : Table) : Table := t.filter (fun c => c.name ≠ nm)

/-- Modelled from the spec: `StandardScaler.fit_transform` (line 60), standardizing
every column of the table; `stds` supplies each column's standard deviation. -/
def fit_transform (stds : List ℚ) (t : Table) : Table :=
  List.zipWith (fun c s => ⟨c.name, standardizeCol s c.vals⟩) t stds

/-- Population covariance of two columns, dividing by the paired length. -/
def covar (xs ys : List ℚ) : ℚ :=
  (List.zipWith (fun a b => (a - mean xs) * (b - mean ys)) xs ys).sum /
    (List.zipWith (fun a b => (a - mean xs) * (b - mean ys)) xs ys).length

/-- Pearson correlation coefficient of two columns with supplied standard deviations. -/
def corrEntry (sx sy : ℚ) (xs ys : List ℚ) : ℚ := covar xs ys / (sx * sy)

/-- Modelled from the spec: `data.corr()` (line 50), the full pairwise Pearson
correlation matrix over all columns of the table, the quality column included;
`stds` supplies each column's standard deviation. -/
def corr (stds : List ℚ) (t : Table) : List (List ℚ) :=
  (t.zip stds).map (fun ci => (t.zip stds).map (fun cj => corrEntry ci.2 cj.2 ci.1.vals cj.1.vals))

/-- Squared Euclidean distance between two points (spec section 4.5 step 3). -/
def sqDist (p q : Point) : ℚ := (List.zipWith (fun a b => (a - b) ^ 2) p q).sum

/-- Index of the centroid nearest to `p` among the remaining candidates, carrying
the running index `i`, best distance `bd` and best index so far. Ties keep the
earlier centroid. -/
def argminAux (p : Point) : List Point → Nat → ℚ → Nat → Nat
  | [], _, _, best => best
  | c :: cs, i, bd, best =>
    if sqDist p c < bd then argminAux p cs (i + 1) (sqDist p c) i
    else argminAux p cs (i + 1) bd best

/-- Index (into `cs`) of the centroid nearest to `p`; 0 when `cs` is empty. -/
def nearestIdx (cs : List Point) (p : Point) : Nat :=
  match cs with
  | [] => 0
  | c :: rest => argminAux p rest 1 (sqDist p c) 0

/-- Componentwise mean of a nonempty list of points; `[]` for the empty list. -/
def centroidOf (pts : List Point) : Point :=
  match pts with
  | [] => []
  | q :: _ => (List.range q.length).map (fun j => mean (pts.map (fun r => r.getD j 0)))

/-- Modelled from the spec: centroid update of Lloyd's algorithm (glossary),
recomputing each of the `k` centroids as the mean of its assigned rows; a
centroid whose cluster is empty is kept where it was. -/
def updateCentroids (k : Nat) (rows : List Point) (labels : List Nat) (old : List Point) :
    List Point :=
  (List.range k).map (fun j =>
    match (rows.zip labels).filterMap (fun rl => if rl.2 = j then some rl.1 else none) with
    | [] => old.getD j []
    | q :: qs => centroidOf (q :: qs))

/-- Modelled from the spec: iterative centroid refinement (spec section 4.5 step 3),
stopping when the centroids are stable or after the iteration cap. -/
def lloydIter (k : Nat) (rows : List Point) : Nat → List Point → List Point
  | 0, cs => cs
  | fuel + 1, cs =>
    let cs' := updateCentroids k rows (rows.map (nearestIdx cs)) cs
    if cs' = cs then cs else lloydIter k rows fuel cs'

/-- Modelled from the spec: the seeded initialization (`random_state=42` at line 62
fixes the seed only for reproducibility), represented as the deterministic
selection of the first `k` rows after a seed-determined rotation. -/
def initCentroids (seed k : Nat) (rows : List Point) : List Point :=
  (rows.drop (seed % rows.length) ++ rows.take (seed % rows.length)).take k

/-- Iteration cap of the clustering loop (the library default). -/
def max_iter : Nat := 300

/-- Modelled from the spec: one full k-means run (lines 62-63), returning the final
centroid positions together with the per-row assignment to its nearest centroid. -/
def kmeansRun (seed k : Nat) (rows : List Point) : List Point × List Nat :=
  let cs := lloydIter k rows max_iter (initCentroids seed k rows)
  (cs, rows.map (nearestIdx cs))

/-- Modelled from the spec: `KMeans(...).fit_predict` (line 63), the per-row cluster
labels of a k-means run. -/
def fit_predict (seed k : Nat) (rows : List Point) : List Nat := (kmeansRun seed k rows).2

/-- The four sidebar section labels offered by the radio selector (lines 16-21). -/
def sectionLabels : List String :=
  ["1. Overview", "2. Data Exploration and Preparation",
   "3. Analysis and Insights", "4. Conclusions and Recommendations"]

/-- The label guarding the clustering branch (line 55). -/
def analysisLabel : String := "3. Analysis and Insights"

/-- Modelled from the spec: the four `if section == label` tests (lines 26, 42, 55, 76);
the branches whose guard matches the selected label. -/
def executedBranches (sec : String) : List String := sectionLabels.filter (fun l => sec == l)

/-- Row vectors of a column-major table (the matrix handed to the clustering call). -/
def rowsOf (t : Table) : List Point := (t.map Col.vals).transpose

/-- Modelled from the spec: `data['Cluster'] = kmeans.fit_predict(...)` (line 63),
appending the per-row cluster id as a new last column of the table. -/
def addCluster (ls : List Nat) (t : Table) : Table :=
  t ++ [⟨"Cluster", ls.map (fun n => (n : ℚ))⟩]

/-- Modelled from the spec: one top-to-bottom execution of the script for a given
section selection (section 5 of the spec: every user action triggers one full
re-execution), tracking what the run does to the in-memory table: only the
analysis branch mutates it, by standardizing the non-quality columns,
clustering the rows and attaching the cluster column. -/
def runScript (stds : List ℚ) (sec : String) (base : Table) : Table :=
  if sec == analysisLabel then
    addCluster (fit_predict 42 3 (rowsOf (fit_transform stds (dropCol "quality" base)))) base
  else base

/-- Whether the table has a column of the given name. -/
def hasCol (nm : String) (t : Table) : Bool := t.any (fun c => c.name == nm)

/-- Modelled from the spec: the option list `data.columns[:-1]` offered by both axis
selectors (lines 69-70): every column name except the positionally last one. -/
def axisOptions (t : Table) : List String := (t.map Col.name).dropLast

/-- A pair of axis choices the two selectboxes can produce: each coordinate is
independently any element of the option list. -/
def validScatterChoice (t : Table) (x y : String) : Prop :=
  x ∈ axisOptions t ∧ y ∈ axisOptions t

/-- Column names of the canonical red-wine dataset: 11 physicochemical features
plus the quality score. -/
def wineColumns : List String :=
  ["fixed acidity", "volatile acidity", "citric acid", "residual sugar", "chlorides",
   "free sulfur dioxide", "total sulfur dioxide", "density", "pH", "sulphates",
   "alcohol", "quality"]

/-- A tiny table with the canonical 12 column names (two rows), used as the
concrete stand-in for the canonical dataset shape. -/
def wineTable0 : Table := wineColumns.map (fun n => ⟨n, [0, 1]⟩)

/-! ### Helper lemmas about sums, means and variances -/

theorem sum_map_div (xs : List ℚ) (f : ℚ → ℚ) (s : ℚ) :
    (xs.map (fun x => f x / s)).sum = (xs.map f).sum / s := by
  induction xs with
  | nil => simp
  | cons a l ih => simp [ih, div_add_div_same]

theorem sum_map_sub_const (xs : List ℚ) (c : ℚ) :
    (xs.map (fun x => x - c)).sum = xs.sum - xs.length * c := by
  induction xs with
  | nil => simp
  | cons a l ih =>
    simp only [List.map_cons, List.sum_cons, ih, List.length_cons]
    push_cast
    ring

theorem sum_standardizeCol (s : ℚ) (xs : List ℚ) : (standardizeCol s xs).sum = 0 := by
  unfold standardizeCol
  rw [sum_map_div xs (fun x => x - mean xs) s, sum_map_sub_const]
  rcases eq_or_ne ((xs.length : ℚ)) 0 with h | h
  · rcases xs with _ | ⟨a, l⟩
    · simp
    · exfalso
      norm_cast at h
  · have hm : (xs.length : ℚ) * mean xs = xs.sum := by
      rw [mean]; field_simp
    rw [hm]
    simp

theorem length_standardizeCol (s : ℚ) (xs : List ℚ) :
    (standardizeCol s xs).length = xs.length := by
  simp [standardizeCol]

theorem mean_standardizeCol (s : ℚ) (xs : List ℚ) : mean (standardizeCol s xs) = 0 := by
  rw [mean, sum_standardizeCol]
  simp

theorem variance_standardizeCol (s : ℚ) (xs : List ℚ) :
    variance (standardizeCol s xs) = variance xs / s ^ 2 := by
  rw [variance, mean_standardizeCol, length_standardizeCol]
  simp only [sub_zero]
  rw [standardizeCol, List.map_map]
  have hcomp : ((fun x => x ^ 2) ∘ fun x => (x - mean xs) / s)
      = fun x => ((x - mean xs) ^ 2) / s ^ 2 := by
    funext x
    simp [Function.comp, div_pow]
  rw [hcomp, sum_map_div xs (fun x => (x - mean xs) ^ 2) (s ^ 2), variance, div_right_comm]

theorem variance_standardizeCol_eq_one (s : ℚ) (xs : List ℚ)
    (hs : s ^ 2 = variance xs) (hs0 : s ≠ 0) :
    variance (standardizeCol s xs) = 1 := by
  rw [variance_standardizeCol, ← hs, div_self (pow_ne_zero 2 hs0)]

theorem covar_comm (xs ys : List ℚ) : covar xs ys = covar ys xs := by
  unfold covar
  rw [List.zipWith_comm (fun a b => (a - mean xs) * (b - mean ys)) xs ys]
  have h : (fun b a => (a - mean xs) * (b - mean ys))
      = fun a b => (a - mean ys) * (b - mean xs) := by
    funext a b
    ring
  rw [h]

theorem covar_self (xs : List ℚ) : covar xs xs = variance xs := by
  unfold covar variance
  have h : (fun a b => (a - mean xs) * (b - mean xs)) = fun a b => (a - mean xs) * (b - mean xs) := rfl
  rw [List.zipWith_same]
  have h2 : (fun a => (a - mean xs) * (a - mean xs)) = fun x => (x - mean xs) ^ 2 := by
    funext x
    ring
  rw [h2, List.length_map]

/-! ### Indexing lemmas -/

theorem getD_map_of_lt {α β : Type} (f : α → β) (l : List α) (i : Nat) (d : β) (d' : α)
    (h : i < l.length) : (l.map f).getD i d = f (l.getD i d') := by
  induction l generalizing i with
  | nil => simp at h
  | cons a t ih =>
    cases i with
    | zero => simp
    | succ n =>
      simp only [List.map_cons, List.getD_cons_succ]
      exact ih n (by simpa using Nat.lt_of_succ_lt_succ h)

theorem getD_zip_of_lt {α β : Type} (as : List α) (bs : List β) (i : Nat) (d₁ : α) (d₂ : β)
    (h1 : i < as.length) (h2 : i < bs.length) :
    (as.zip bs).getD i (d₁, d₂) = (as.getD i d₁, bs.getD i d₂) := by
  induction as generalizing bs i with
  | nil => simp at h1
  | cons a t ih =>
    cases bs with
    | nil => simp at h2
    | cons b u =>
      cases i with
      | zero => simp
      | succ n =>
        simp only [List.zip_cons_cons, List.getD_cons_succ]
        exact ih u n (Nat.lt_of_succ_lt_succ h1) (Nat.lt_of_succ_lt_succ h2)

theorem getD_fit_transform (stds : List ℚ) (t : Table) (i : Nat)
    (hi : i < t.length) (hs : i < stds.length) :
    (fit_transform stds t).getD i ⟨"", []⟩ =
      ⟨(t.getD i ⟨"", []⟩).name, standardizeCol (stds.getD i 0) (t.getD i ⟨"", []⟩).vals⟩ := by
  induction t generalizing stds i with
  | nil => simp at hi
  | cons c u ih =>
    cases stds with
    | nil => simp at hs
    | cons s ss =>
      cases i with
      | zero => simp [fit_transform]
      | succ n =>
        simp only [fit_transform, List.zipWith_cons_cons, List.getD_cons_succ]
        exact ih ss n (Nat.lt_of_succ_lt_succ hi) (Nat.lt_of_succ_lt_succ hs)

theorem fit_transform_names : ∀ (t : Table) (stds : List ℚ), t.length ≤ stds.length →
    (fit_transform stds t).map Col.name = t.map Col.name := by
  intro t
  induction t with
  | nil => intro stds _; simp [fit_transform]
  | cons c u ih =>
    intro stds h
    cases stds with
    | nil => simp at h
    | cons s ss =>
      simp only [fit_transform, List.zipWith_cons_cons, List.map_cons]
      have := ih ss (by simpa using Nat.le_of_succ_le_succ h)
      simp only [fit_transform] at this
      rw [this]

theorem dropCol_name_ne (nm : String) (t : Table) :
    ∀ c ∈ dropCol nm t, c.name ≠ nm := by
  intro c hc
  have := List.mem_filter.mp hc
  simpa using this.2

/-! ### Structural lemmas about the clustering embedding -/

theorem argminAux_lt (p : Point) :
    ∀ (cs : List Point) (i : Nat) (bd : ℚ) (best : Nat),
      best < i → argminAux p cs i bd best < i + cs.length := by
  intro cs
  induction cs with
  | nil =>
    intro i bd best h
    simpa [argminAux] using h
  | cons c rest ih =>
    intro i bd best h
    rw [argminAux]
    split
    · have hb := ih (i + 1) (sqDist p c) i (Nat.lt_succ_self i)
      simp only [List.length_cons]
      omega
    · have hb := ih (i + 1) bd best (Nat.lt_succ_of_lt h)
      simp only [List.length_cons]
      omega

theorem nearestIdx_lt (cs : List Point) (p : Point) (h : cs ≠ []) :
    nearestIdx cs p < cs.length := by
  match cs with
  | c :: rest =>
    have hb := argminAux_lt p rest 1 (sqDist p c) 0 Nat.one_pos
    simp only [nearestIdx, List.length_cons]
    omega

theorem updateCentroids_length (k : Nat) (rows : List Point) (labels : List Nat)
    (old : List Point) : (updateCentroids k rows labels old).length = k := by
  simp [updateCentroids]

theorem lloydIter_length (k : Nat) (rows : List Point) :
    ∀ (fuel : Nat) (cs : List Point), cs.length = k →
      (lloydIter k rows fuel cs).length = k := by
  intro fuel
  induction fuel with
  | zero =>
    intro cs h
    simpa [lloydIter] using h
  | succ n ih =>
    intro cs h
    rw [lloydIter]
    split
    · exact h
    · exact ih _ (updateCentroids_length k rows _ cs)

theorem initCentroids_length (seed k : Nat) (rows : List Point) (h : k ≤ rows.length) :
    (initCentroids seed k rows).length = k := by
  rcases Nat.eq_zero_or_pos rows.length with h0 | h0
  · have hk : k = 0 := by omega
    subst hk
    simp [initCentroids]
  · have hm : seed % rows.length < rows.length := Nat.mod_lt _ h0
    simp only [initCentroids, List.length_take, List.length_append, List.length_drop]
    omega

theorem corr_entry_eq (data : Table) (stds : List ℚ) (hlen : stds.length = data.length)
    (i j : Nat) (hi : i < data.length) (hj : j < data.length) :
    ((corr stds data).getD i []).getD j 0 =
      corrEntry (stds.getD i 0) (stds.getD j 0)
        (data.getD i ⟨"", []⟩).vals (data.getD j ⟨"", []⟩).vals := by
  have hzi : i < (data.zip stds).length := by
    simp only [List.length_zip]
    omega
  have hzj : j < (data.zip stds).length := by
    simp only [List.length_zip]
    omega
  rw [corr, getD_map_of_lt _ _ i [] ((⟨"", []⟩ : Col), (0 : ℚ)) hzi,
    getD_map_of_lt _ _ j (0 : ℚ) ((⟨"", []⟩ : Col), (0 : ℚ)) hzj,
    getD_zip_of_lt data stds i ⟨"", []⟩ 0 hi (by omega),
    getD_zip_of_lt data stds j ⟨"", []⟩ 0 hj (by omega)]

/-! ### Claim theorems -/

/-- C3: the standardization step operates on the table with the quality column
removed (the transformed columns are exactly the non-quality columns, none of
them named quality), and each resulting column has zero mean and unit variance,
where the supplied standard deviation of each column squares to that column's
variance over the full dataset. -/
theorem standardize_drops_quality_and_normalizes (data : Table) (stds : List ℚ)
    (hlen : stds.length = (dropCol "quality" data).length) :
    ((fit_transform stds (dropCol "quality" data)).map Col.name
        = (dropCol "quality" data).map Col.name
      ∧ ∀ c ∈ fit_transform stds (dropCol "quality" data), c.name ≠ "quality")
    ∧ ∀ i, i < (dropCol "quality" data).length →
        (stds.getD i 0) ^ 2 = variance ((dropCol "quality" data).getD i ⟨"", []⟩).vals →
        stds.getD i 0 ≠ 0 →
        mean ((fit_transform stds (dropCol "quality" data)).getD i ⟨"", []⟩).vals = 0
          ∧ variance ((fit_transform stds (dropCol "quality" data)).getD i ⟨"", []⟩).vals = 1 := by
  constructor
  · constructor
    · exact fit_transform_names _ stds (le_of_eq hlen.symm)
    · intro c hc
      have hname : c.name ∈ (fit_transform stds (dropCol "quality" data)).map Col.name :=
        List.mem_map_of_mem Col.name hc
      rw [fit_transform_names _ stds (le_of_eq hlen.symm)] at hname
      obtain ⟨c', hc', he⟩ := List.mem_map.mp hname
      rw [← he]
      exact dropCol_name_ne "quality" data c' hc'
  · intro i hi hvar hs0
    rw [getD_fit_transform stds _ i hi (by omega)]
    exact ⟨mean_standardizeCol _ _, variance_standardizeCol_eq_one _ _ hvar hs0⟩

/-- C3 witness: a concrete two-column table whose quality column is dropped and
whose remaining column is standardized to zero mean and unit variance. -/
theorem standardize_drops_quality_and_normalizes_witness :
    mean ((fit_transform [1] (dropCol "quality" [⟨"a", [1, 3]⟩, ⟨"quality", [5, 6]⟩])).getD 0
        ⟨"", []⟩).vals = 0
      ∧ variance ((fit_transform [1] (dropCol "quality" [⟨"a", [1, 3]⟩, ⟨"quality", [5, 6]⟩])).getD 0
        ⟨"", []⟩).vals = 1 :=
  (standardize_drops_quality_and_normalizes [⟨"a", [1, 3]⟩, ⟨"quality", [5, 6]⟩] [1]
    (by decide)).2 0 (by decide)
    (by
      have hd : (dropCol "quality" [⟨"a", [1, 3]⟩, ⟨"quality", [5, 6]⟩]).getD 0 ⟨"", []⟩
          = (⟨"a", [1, 3]⟩ : Col) := rfl
      rw [hd]
      norm_num [variance, mean])
    (by norm_num)

/-- C5: standardizing an already-standardized table (every column has zero mean
and unit variance, so every column's standard deviation is 1) again yields
columns of zero mean and unit variance. -/
theorem standardization_idempotent (t : Table)
    (h : ∀ c ∈ t, mean c.vals = 0 ∧ variance c.vals = 1) :
    ∀ c ∈ fit_transform (List.replicate t.length 1) t,
      mean c.vals = 0 ∧ variance c.vals = 1 := by
  have hrep : ∀ u : Table, fit_transform (List.replicate u.length 1) u
      = u.map (fun c => ⟨c.name, standardizeCol 1 c.vals⟩) := by
    intro u
    induction u with
    | nil => simp [fit_transform]
    | cons c v ih =>
      simp only [List.length_cons, List.replicate_succ, fit_transform,
        List.zipWith_cons_cons, List.map_cons]
      simp only [fit_transform] at ih
      rw [ih]
  intro c hc
  rw [hrep] at hc
  obtain ⟨c', hc', he⟩ := List.mem_map.mp hc
  rw [← he]
  refine ⟨mean_standardizeCol 1 c'.vals, ?_⟩
  have hv := (h c' hc').2
  exact variance_standardizeCol_eq_one 1 c'.vals (by rw [hv]; norm_num) one_ne_zero

/-- C5 witness: standardizing the already-standardized single-column table with
values 1 and -1 again yields zero mean and unit variance. -/
theorem standardization_idempotent_witness :
    mean (Col.mk "a" [1, -1]).vals = 0 ∧ variance (Col.mk "a" [1, -1]).vals = 1 :=
  standardization_idempotent [⟨"a", [1, -1]⟩]
    (by
      intro c hc
      rw [List.mem_singleton.mp hc]
      constructor
      · norm_num [mean]
      · norm_num [variance, mean])
    ⟨"a", [1, -1]⟩
    (by
      have hrep : List.replicate ([(⟨"a", [1, -1]⟩ : Col)].length) (1 : ℚ) = [1] := rfl
      rw [hrep]
      have hft : fit_transform [1] [⟨"a", [1, -1]⟩] = [⟨"a", standardizeCol 1 [1, -1]⟩] := rfl
      rw [hft]
      have hsc : standardizeCol 1 [1, -1] = [1, -1] := by
        norm_num [standardizeCol, mean]
      rw [hsc]
      exact List.mem_singleton.mpr rfl)

/-- C4: the correlation matrix computed over the full table (all columns, the
quality column included, so the matrix is square of side the full column count)
is symmetric, and every diagonal entry equals 1 whenever the supplied standard
deviation of that column squares to its variance and is nonzero. -/
theorem corr_symmetric_unit_diagonal (data : Table) (stds : List ℚ)
    (hlen : stds.length = data.length) :
    ((corr stds data).length = data.length
      ∧ ∀ row ∈ corr stds data, row.length = data.length)
    ∧ (∀ i j, i < data.length → j < data.length →
        ((corr stds data).getD i []).getD j 0 = ((corr stds data).getD j []).getD i 0)
    ∧ ∀ i, i < data.length →
        (stds.getD i 0) ^ 2 = variance (data.getD i ⟨"", []⟩).vals →
        stds.getD i 0 ≠ 0 →
        ((corr stds data).getD i []).getD i 0 = 1 := by
  refine ⟨⟨?_, ?_⟩, ?_, ?_⟩
  · simp [corr, List.length_zip, hlen]
  · intro row hr
    obtain ⟨ci, _, he⟩ := List.mem_map.mp hr
    rw [← he]
    simp [List.length_zip, hlen]
  · intro i j hi hj
    rw [corr_entry_eq data stds hlen i j hi hj, corr_entry_eq data stds hlen j i hj hi,
      corrEntry, corrEntry, covar_comm, mul_comm]
  · intro i hi hvar hs0
    rw [corr_entry_eq data stds hlen i i hi hi, corrEntry, covar_self, ← hvar, pow_two,
      div_self (mul_ne_zero hs0 hs0)]

/-- C4 witness: on a concrete two-column table (quality included) the correlation
matrix is 2 by 2, symmetric at the off-diagonal pair, and has 1 at the corner. -/
theorem corr_symmetric_unit_diagonal_witness :
    (corr [1, 1] [⟨"a", [1, 3]⟩, ⟨"quality", [0, 2]⟩]).length = 2
      ∧ ((corr [1, 1] [⟨"a", [1, 3]⟩, ⟨"quality", [0, 2]⟩]).getD 0 []).getD 1 0
          = ((corr [1, 1] [⟨"a", [1, 3]⟩, ⟨"quality", [0, 2]⟩]).getD 1 []).getD 0 0
      ∧ ((corr [1, 1] [⟨"a", [1, 3]⟩, ⟨"quality", [0, 2]⟩]).getD 0 []).getD 0 0 = 1 :=
  ⟨(corr_symmetric_unit_diagonal [⟨"a", [1, 3]⟩, ⟨"quality", [0, 2]⟩] [1, 1] (by decide)).1.1,
   (corr_symmetric_unit_diagonal [⟨"a", [1, 3]⟩, ⟨"quality", [0, 2]⟩] [1, 1]
     (by decide)).2.1 0 1 (by decide) (by decide),
   (corr_symmetric_unit_diagonal [⟨"a", [1, 3]⟩, ⟨"quality", [0, 2]⟩] [1, 1]
     (by decide)).2.2 0 (by decide) (by norm_num [variance, mean]) (by norm_num)⟩

theorem lloydIter_of_fixpoint (k : Nat) (rows : List Point) (fuel : Nat) (cs : List Point)
    (h : updateCentroids k rows (rows.map (nearestIdx cs)) cs = cs) :
    lloydIter k rows fuel cs = cs := by
  cases fuel with
  | zero => rfl
  | succ n =>
    rw [lloydIter]
    simp [h]

/-- C1 counterexample: on the table of three identical rows the clustering step
assigns every row the label 0, so the set of labels used is not all of 0, 1, 2:
label 1 never occurs. -/
theorem kmeans_labels_not_all_used :
    fit_predict 42 3 [[1], [1], [1]] = [0, 0, 0] ∧ 1 ∉ fit_predict 42 3 [[1], [1], [1]] := by
  have hinit : initCentroids 42 3 [[1], [1], [1]] = [[1], [1], [1]] := rfl
  have hnear : ([[1], [1], [1]] : List Point).map (nearestIdx [[1], [1], [1]])
      = [0, 0, 0] := by
    norm_num [nearestIdx, argminAux, sqDist]
  have hupd : updateCentroids 3 [[1], [1], [1]] [0, 0, 0] [[1], [1], [1]]
      = [[1], [1], [1]] := by
    have hr : List.range 3 = [0, 1, 2] := by decide
    have hr1 : List.range 1 = [0] := by decide
    have hf0 : List.filterMap (fun rl => if rl.2 = 0 then some rl.1 else none)
        ([([1], 0), ([1], 0), ([1], 0)] : List (Point × Nat)) = [[1], [1], [1]] := rfl
    have hf1 : List.filterMap (fun rl => if rl.2 = 1 then some rl.1 else none)
        ([([1], 0), ([1], 0), ([1], 0)] : List (Point × Nat)) = [] := rfl
    have hf2 : List.filterMap (fun rl => if rl.2 = 2 then some rl.1 else none)
        ([([1], 0), ([1], 0), ([1], 0)] : List (Point × Nat)) = [] := rfl
    norm_num [updateCentroids, hr, hr1, hf0, hf1, hf2, centroidOf, mean]
  have hfix : lloydIter 3 [[1], [1], [1]] max_iter [[1], [1], [1]] = [[1], [1], [1]] :=
    lloydIter_of_fixpoint 3 _ max_iter _ (by rw [hnear, hupd])
  have hfp : fit_predict 42 3 [[1], [1], [1]] = [0, 0, 0] := by
    rw [fit_predict, kmeansRun]
    simp only [hinit, hfix, hnear]
  refine ⟨hfp, ?_⟩
  rw [hfp]
  decide

/-- C1 (amended): for every input table with at least 3 rows, the clustering step
gives every row exactly one cluster label and every label lies in 0..2; the set
of labels used is contained in 0..2 but, for degenerate inputs such as three
identical rows, need not be all of it. -/
theorem kmeans_labels_bounded (rows : List Point) (h : 3 ≤ rows.length) :
    (fit_predict 42 3 rows).length = rows.length
      ∧ ∀ l ∈ fit_predict 42 3 rows, l < 3 := by
  have hinit := initCentroids_length 42 3 rows h
  have hcs : (lloydIter 3 rows max_iter (initCentroids 42 3 rows)).length = 3 :=
    lloydIter_length 3 rows max_iter _ hinit
  constructor
  · simp [fit_predict, kmeansRun]
  · intro l hl
    simp only [fit_predict, kmeansRun, List.mem_map] at hl
    obtain ⟨p, hp, he⟩ := hl
    have hne : lloydIter 3 rows max_iter (initCentroids 42 3 rows) ≠ [] := by
      intro e
      rw [e] at hcs
      simp at hcs
    have hlt := nearestIdx_lt _ p hne
    rw [hcs] at hlt
    rw [← he]
    exact hlt

/-- C1 witness: the amended claim applied to a concrete three-row table. -/
theorem kmeans_labels_bounded_witness :
    (fit_predict 42 3 [[0], [3], [10]]).length = 3 :=
  (kmeans_labels_bounded [[0], [3], [10]] (by decide)).1

/-- C2: clustering is deterministic: two runs of the k-means step on the same
input table with the fixed seed 42 yield identical centroid positions and
identical per-row assignments. -/
theorem kmeans_deterministic (rows : List Point) (r₁ r₂ : List Point × List Nat)
    (h₁ : r₁ = kmeansRun 42 3 rows) (h₂ : r₂ = kmeansRun 42 3 rows) :
    r₁.1 = r₂.1 ∧ r₁.2 = r₂.2 := by
  subst h₁
  subst h₂
  exact ⟨rfl, rfl⟩

/-- C2 witness: two runs on a concrete three-row table agree. -/
theorem kmeans_deterministic_witness :
    (kmeansRun 42 3 [[0], [2], [9]]).1 = (kmeansRun 42 3 [[0], [2], [9]]).1
      ∧ (kmeansRun 42 3 [[0], [2], [9]]).2 = (kmeansRun 42 3 [[0], [2], [9]]).2 :=
  kmeans_deterministic [[0], [2], [9]] _ _ rfl rfl

/-- C6: at a table whose single feature column is constant (standard deviation
zero), the standardization step completes silently, mapping the column to all
zeros, and the resulting rows are passed to the clustering step which also
completes, labelling every row; no computation failure is surfaced anywhere in
the pipeline. -/
theorem constant_column_no_failure :
    fit_transform [0] [⟨"const", [5, 5, 5]⟩] = [⟨"const", [0, 0, 0]⟩]
      ∧ fit_predict 42 3 (rowsOf (fit_transform [0] [⟨"const", [5, 5, 5]⟩])) = [0, 0, 0] := by
  have hft : fit_transform [0] [⟨"const", [5, 5, 5]⟩] = [⟨"const", [0, 0, 0]⟩] := by
    norm_num [fit_transform, standardizeCol, mean]
  refine ⟨hft, ?_⟩
  rw [hft]
  have hrows : rowsOf [⟨"const", [0, 0, 0]⟩] = [[0], [0], [0]] := rfl
  rw [hrows]
  have hinit : initCentroids 42 3 [[0], [0], [0]] = [[0], [0], [0]] := rfl
  have hnear : ([[0], [0], [0]] : List Point).map (nearestIdx [[0], [0], [0]])
      = [0, 0, 0] := by
    norm_num [nearestIdx, argminAux, sqDist]
  have hupd : updateCentroids 3 [[0], [0], [0]] [0, 0, 0] [[0], [0], [0]]
      = [[0], [0], [0]] := by
    have hr : List.range 3 = [0, 1, 2] := by decide
    have hr1 : List.range 1 = [0] := by decide
    have hf0 : List.filterMap (fun rl => if rl.2 = 0 then some rl.1 else none)
        ([([0], 0), ([0], 0), ([0], 0)] : List (Point × Nat)) = [[0], [0], [0]] := rfl
    have hf1 : List.filterMap (fun rl => if rl.2 = 1 then some rl.1 else none)
        ([([0], 0), ([0], 0), ([0], 0)] : List (Point × Nat)) = [] := rfl
    have hf2 : List.filterMap (fun rl => if rl.2 = 2 then some rl.1 else none)
        ([([0], 0), ([0], 0), ([0], 0)] : List (Point × Nat)) = [] := rfl
    norm_num [updateCentroids, hr, hr1, hf0, hf1, hf2, centroidOf, mean]
  have hfix : lloydIter 3 [[0], [0], [0]] max_iter [[0], [0], [0]] = [[0], [0], [0]] :=
    lloydIter_of_fixpoint 3 _ max_iter _ (by rw [hnear, hupd])
  rw [fit_predict, kmeansRun]
  simp only [hinit, hfix, hnear]

/-- C7 counterexample: for the canonical 12-column table the correlation matrix
has 12 rows, not 11 as the claim states. -/
theorem corr_heatmap_not_eleven_rows :
    (corr (List.replicate 12 1) wineTable0).length = 12
      ∧ (corr (List.replicate 12 1) wineTable0).length ≠ 11 := by
  have h : (corr (List.replicate 12 1) wineTable0).length = 12 := by
    simp [corr, List.length_zip, wineTable0, wineColumns]
  exact ⟨h, by rw [h]; decide⟩

/-- C7 (amended): for a table with 12 numeric columns the correlation heatmap is
a 12 by 12 matrix: 12 rows, each of length 12. -/
theorem corr_heatmap_12_by_12 (t : Table) (stds : List ℚ)
    (h : t.length = 12) (h2 : stds.length = 12) :
    (corr stds t).length = 12 ∧ ∀ row ∈ corr stds t, row.length = 12 := by
  constructor
  · simp [corr, List.length_zip, h, h2]
  · intro row hr
    rw [corr] at hr
    obtain ⟨ci, _, he⟩ := List.mem_map.mp hr
    rw [← he]
    simp [List.length_zip, h, h2]

/-- C7 witness: the amended claim applied to the canonical 12-column table. -/
theorem corr_heatmap_12_by_12_witness :
    (corr (List.replicate 12 1) wineTable0).length = 12 :=
  (corr_heatmap_12_by_12 wineTable0 (List.replicate 12 1)
    (by simp [wineTable0, wineColumns]) (by simp)).1

/-- C8 counterexample: the cluster column is attached during the interaction that
renders the analysis section, but a subsequent interaction re-executes the
script on the freshly loaded table, and with any other section active the
resulting table has no Cluster column: the column does not remain present
across subsequent user interactions. -/
theorem cluster_column_not_persistent :
    hasCol "Cluster" (runScript [1] "3. Analysis and Insights"
        [⟨"a", [1, 3, 1]⟩, ⟨"quality", [5, 6, 7]⟩]) = true
      ∧ hasCol "Cluster" (runScript [1] "1. Overview"
        [⟨"a", [1, 3, 1]⟩, ⟨"quality", [5, 6, 7]⟩]) = false := by
  decide

/-- C8 (amended): within the interaction whose active branch is the analysis
section the cluster id is attached as a new column of the in-memory table and
stays on the table for the remainder of that script run; a run with any other
active section leaves the freshly loaded table unchanged, so the column is
present in an interaction exactly when the analysis branch executes, not across
all subsequent interactions. -/
theorem cluster_column_per_run (stds : List ℚ) (base : Table)
    (h : hasCol "Cluster" base = false) :
    hasCol "Cluster" (runScript stds analysisLabel base) = true
      ∧ ∀ sec, sec ≠ analysisLabel →
          runScript stds sec base = base
            ∧ hasCol "Cluster" (runScript stds sec base) = false := by
  constructor
  · rw [runScript]
    simp [addCluster, hasCol, List.any_append]
  · intro sec hs
    have hb : (sec == analysisLabel) = false := beq_eq_false_iff_ne.mpr hs
    have hrun : runScript stds sec base = base := by
      rw [runScript]
      simp [hb]
    exact ⟨hrun, by rw [hrun]; exact h⟩

/-- C8 witness: the amended claim applied to a concrete two-column table and the
overview section as the subsequent interaction. -/
theorem cluster_column_per_run_witness :
    hasCol "Cluster"
        (runScript [1] analysisLabel [⟨"a", [1, 3, 1]⟩, ⟨"quality", [5, 6, 7]⟩]) = true
      ∧ runScript [1] "1. Overview" [⟨"a", [1, 3, 1]⟩, ⟨"quality", [5, 6, 7]⟩]
          = [⟨"a", [1, 3, 1]⟩, ⟨"quality", [5, 6, 7]⟩] :=
  ⟨(cluster_column_per_run [1] [⟨"a", [1, 3, 1]⟩, ⟨"quality", [5, 6, 7]⟩] (by decide)).1,
   ((cluster_column_per_run [1] [⟨"a", [1, 3, 1]⟩, ⟨"quality", [5, 6, 7]⟩] (by decide)).2
     "1. Overview" (by decide)).1⟩

/-- C9: for every value of the section selection, the branches whose guard
matches are exactly one branch (the selected one) when the value is one of the
four fixed labels and none otherwise; and a run with any non-analysis section
leaves the table untouched, the table mutation being the only branch side
effect on shared state. -/
theorem section_dispatch (sec : String) (stds : List ℚ) (base : Table) :
    (sec ∈ sectionLabels → executedBranches sec = [sec])
      ∧ (sec ∉ sectionLabels → executedBranches sec = [])
      ∧ (sec ≠ analysisLabel → runScript stds sec base = base) := by
  refine ⟨?_, ?_, ?_⟩
  · intro h
    simp only [sectionLabels] at h
    fin_cases h <;> decide
  · intro h
    rw [executedBranches, List.filter_eq_nil_iff]
    intro a ha hb
    rw [beq_iff_eq] at hb
    exact h (hb ▸ ha)
  · intro hs
    have hb : (sec == analysisLabel) = false := beq_eq_false_iff_ne.mpr hs
    rw [runScript]
    simp [hb]

/-- C9 witness: the dispatch applied to a known label, an unknown label, and a
non-analysis label on a concrete table. -/
theorem section_dispatch_witness :
    executedBranches "1. Overview" = ["1. Overview"]
      ∧ executedBranches "other" = []
      ∧ runScript [1] "1. Overview" [⟨"a", [1]⟩] = [⟨"a", [1]⟩] :=
  ⟨(section_dispatch "1. Overview" [1] [⟨"a", [1]⟩]).1 (by decide),
   (section_dispatch "other" [1] [⟨"a", [1]⟩]).2.1 (by decide),
   (section_dispatch "1. Overview" [1] [⟨"a", [1]⟩]).2.2 (by decide)⟩

/-- C10: after the cluster column is attached as the positionally last column,
both axis selectors offer exactly the original column names (features plus
quality, excluding only the last Cluster column); quality is therefore
selectable, and the same column may be chosen for both axes. -/
theorem scatter_axis_options (base : Table) (ls : List Nat) :
    axisOptions (addCluster ls base) = base.map Col.name
      ∧ ("quality" ∈ base.map Col.name → "quality" ∈ axisOptions (addCluster ls base))
      ∧ ("Cluster" ∉ base.map Col.name → "Cluster" ∉ axisOptions (addCluster ls base))
      ∧ ∀ c ∈ base.map Col.name, validScatterChoice (addCluster ls base) c c := by
  have hx : axisOptions (addCluster ls base) = base.map Col.name := by
    rw [axisOptions, addCluster, List.map_append]
    simp
  refine ⟨hx, ?_, ?_, ?_⟩
  · intro h
    rw [hx]
    exact h
  · intro h
    rw [hx]
    exact h
  · intro c hc
    rw [validScatterChoice, hx]
    exact ⟨hc, hc⟩

/-- C10 witness: on the canonical 12-column table with the cluster column
attached, the axis options are the 12 original columns and quality can be
chosen for both axes. -/
theorem scatter_axis_options_witness :
    axisOptions (addCluster [0, 1] wineTable0) = wineTable0.map Col.name
      ∧ "quality" ∈ axisOptions (addCluster [0, 1] wineTable0)
      ∧ validScatterChoice (addCluster [0, 1] wineTable0) "quality" "quality" :=
  ⟨(scatter_axis_options wineTable0 [0, 1]).1,
   (scatter_axis_options wineTable0 [0, 1]).2.1 (by decide),
   (scatter_axis_options wineTable0 [0, 1]).2.2.2 "quality" (by decide)⟩

end WineQuality
